import Mathlib

/-!
Shallow embedding of `src/wrapped.py` (class `SpotifyAnalyzer`): a Spotify
streaming-history analyzer.  Python dictionaries (`defaultdict`) are modelled
as insertion-ordered association lists; Python `float` arithmetic on scores is
modelled over `ℚ` (all quantities involved are exact decimals); Python
`datetime` values (minute precision, as parsed by
`strptime('%Y-%m-%d %H:%M')`) are modelled as a record of numeric fields,
compared through their total-minute count (for valid calendar dates this
agrees with both `datetime` comparison and lexicographic comparison of the
zero-padded timestamp strings that the code sorts by).  A Python computation
that raises (`ZeroDivisionError`, `KeyError`, `max()` on an empty sequence) is
modelled by `Option`, with `none` for the fault.
-/

namespace Wrapped

/-! ### Calendar arithmetic (Python `datetime` / `date.isocalendar`) -/

/-- A timezone-naive timestamp at minute precision, the result of
`datetime.strptime(s, '%Y-%m-%d %H:%M')`. -/
structure DateTime where
  year : Nat
  month : Nat
  day : Nat
  hour : Nat
  minute : Nat
deriving DecidableEq

/-- Gregorian leap-year test. -/
def isLeap (y : Nat) : Bool :=
  (y % 4 == 0 && y % 100 != 0) || y % 400 == 0

/-- Days in the months strictly before month `m` of a non-leap year. -/
def daysBeforeMonth (m : Nat) : Nat :=
  [0, 0, 31, 59, 90, 120, 151, 181, 212, 243, 273, 304, 334].getD m 0

/-- 1-based ordinal day of the year. -/
def dayOfYear (y m d : Nat) : Nat :=
  daysBeforeMonth m + d + (if 2 < m && isLeap y then 1 else 0)

/-- Proleptic-Gregorian rata die: day 1 is 0001-01-01 (a Monday). -/
def rataDie (y m d : Nat) : Nat :=
  365 * (y - 1) + (y - 1) / 4 - (y - 1) / 100 + (y - 1) / 400 + dayOfYear y m d

/-- Total minutes since the proleptic-Gregorian epoch; the sort and
comparison key for timestamps. -/
def toMin (dt : DateTime) : Nat :=
  1440 * rataDie dt.year dt.month dt.day + 60 * dt.hour + dt.minute

/-- ISO weekday, Monday = 1 .. Sunday = 7. -/
def isoWeekday (y m d : Nat) : Nat :=
  (rataDie y m d + 6) % 7 + 1

/-- Weekday of 31 December of year `y` (0 = Sunday .. 6 = Saturday), used by
the standard 52/53-week rule. -/
def pYear (y : Nat) : Nat :=
  (y + y / 4 - y / 100 + y / 400) % 7

/-- Number of ISO weeks in ISO year `y` (52 or 53). -/
def isoWeeksInYear (y : Nat) : Nat :=
  52 + (if pYear y == 4 || pYear (y - 1) == 3 then 1 else 0)

/-- Python `date.isocalendar()` restricted to its first two components:
the pair (ISO year, ISO week number); weeks start on Monday and week 1 is
the week containing the first Thursday of the year. -/
def isoWeekPair (y m d : Nat) : Nat × Nat :=
  let w := (dayOfYear y m d + 10 - isoWeekday y m d) / 7
  if w = 0 then (y - 1, isoWeeksInYear (y - 1))
  else if isoWeeksInYear y < w then (y + 1, 1)
  else (y, w)

/-! ### Association lists (Python `dict` / `defaultdict` with insertion order) -/

/-- A Python dictionary: key/value pairs in insertion order. -/
abbrev AList (K V : Type) : Type := List (K × V)

namespace AList

variable {K V : Type} [DecidableEq K]

/-- `m.get(k)` as an `Option`. -/
def lookup? (m : AList K V) (k : K) : Option V :=
  match m with
  | [] => none
  | (k', v) :: rest => if k' = k then some v else lookup? rest k

/-- `m.get(k, d)`. -/
def getD (m : AList K V) (k : K) (d : V) : V :=
  (lookup? m k).getD d

/-- The mutation `m[k] = f(m[k])` on a `defaultdict` with default `d`:
updates the entry in place if present, otherwise appends the key with
value `f d` (Python insertion order). -/
def bump (m : AList K V) (k : K) (d : V) (f : V → V) : AList K V :=
  match m with
  | [] => [(k, f d)]
  | (k', v) :: rest => if k' = k then (k', f v) :: rest else (k', v) :: bump rest k d f

/-- `m.keys()` in insertion order. -/
def keys (m : AList K V) : List K :=
  List.map Prod.fst m

/-- `{k: g(k, v) for k, v in m.items()}` (key-preserving rebuild). -/
def mapVal (m : AList K V) {W : Type} (g : K → V → W) : AList K W :=
  List.map (fun kv => (kv.1, g kv.1 kv.2)) m

/-- `{k: v for k, v in m.items() if p(k, v)}`. -/
def filt (m : AList K V) (p : K → V → Bool) : AList K V :=
  List.filter (fun kv => p kv.1 kv.2) m

/-- `max(f(v) for v in m.values())`, with `0` for the empty dictionary
(callers that need Python's `max()`-on-empty fault handle it separately). -/
def maxVal (m : AList K V) (f : V → Nat) : Nat :=
  List.foldr (fun kv acc => max (f kv.2) acc) 0 m

/-- `sum(m.values())` for integer-valued dictionaries. -/
def sumVal (m : AList K Nat) : Nat :=
  List.foldr (fun kv acc => kv.2 + acc) 0 m

end AList

/-! ### Play events -/

/-- One record of a `StreamingHistory_music*.json` file.  `trackName`,
`artistName` and `msPlayed` are read with `dict.get` and a default, so they
are optional; `endTime` is accessed directly (a record without it never gets
past parsing). -/
structure Stream where
  trackName : Option String
  artistName : Option String
  endTime : DateTime
  msPlayed : Option Nat
deriving DecidableEq

/-- `get_song_key`: `f"{track}|||{artist}"` with `'Unknown'` defaults. -/
def get_song_key (s : Stream) : String :=
  s.trackName.getD "Unknown" ++ "|||" ++ s.artistName.getD "Unknown"

/-- The cutoff `datetime(2024, 12, 1)` of `load_streaming_history`. -/
def cutoff : DateTime := ⟨2024, 12, 1, 0, 0⟩

/-- Order on events used by `self.streams.sort(key=lambda x: x['endTime'])`:
for the zero-padded `'%Y-%m-%d %H:%M'` strings the code compares,
lexicographic string order coincides with chronological order. -/
def streamLE (a b : Stream) : Prop :=
  toMin a.endTime ≤ toMin b.endTime

instance : DecidableRel streamLE := fun _ _ => Nat.decLe _ _

instance : IsTotal Stream streamLE := ⟨fun _ _ => Nat.le_total _ _⟩

instance : IsTrans Stream streamLE := ⟨fun _ _ _ => Nat.le_trans⟩

/-- `load_streaming_history` after JSON concatenation: keep events with
timestamp `>=` the cutoff, then sort ascending by timestamp (Python's
`list.sort` is stable; `List.insertionSort` is a stable sort). -/
def load_streaming_history (streams : List Stream) : List Stream :=
  List.insertionSort streamLE
    (streams.filter fun s => decide (toMin cutoff ≤ toMin s.endTime))

/-! ### analyze_basic_metrics -/

/-- One value of the `song_stats` defaultdict. -/
structure BasicStats where
  play_count : Nat
  total_ms : Nat
  track_name : String
  artist_name : String
deriving DecidableEq

def basicDefault : BasicStats := ⟨0, 0, "", ""⟩

/-- The body of the `analyze_basic_metrics` loop for one stream. -/
def basicStep (s : Stream) (st : BasicStats) : BasicStats :=
  let st' : BasicStats :=
    { st with
      play_count := st.play_count + 1
      total_ms := st.total_ms + s.msPlayed.getD 0 }
  if st'.track_name = "" then
    { st' with
      track_name := s.trackName.getD "Unknown"
      artist_name := s.artistName.getD "Unknown" }
  else st'

def analyze_basic_metrics (streams : List Stream) : AList String BasicStats :=
  streams.foldl (fun m s => m.bump (get_song_key s) basicDefault (basicStep s)) []

/-! ### detect_session_starters -/

/-- Gap in minutes between two events (`(current - previous).total_seconds() / 60`,
an exact integer at minute precision). -/
def gapMinutes (prev cur : Stream) : Int :=
  (toMin cur.endTime : Int) - (toMin prev.endTime : Int)

def sessionBump (m : AList String Nat) (s : Stream) : AList String Nat :=
  m.bump (get_song_key s) 0 (· + 1)

def dssGo (prev : Stream) : List Stream → AList String Nat → AList String Nat
  | [], acc => acc
  | s :: rest, acc =>
      dssGo s rest (if 30 ≤ gapMinutes prev s then sessionBump acc s else acc)

/-- `detect_session_starters`: the first event always starts a session; a
later event starts one exactly when its gap from the previous event is at
least `session_gap_minutes = 30`. -/
def detect_session_starters : List Stream → AList String Nat
  | [] => []
  | s :: rest => dssGo s rest (sessionBump [] s)

/-! ### calculate_completion_rates -/

/-- One value of the `song_completions` defaultdict. -/
structure CompStats where
  total_plays : Nat
  completed_plays : Nat
  skipped_plays : Nat
  completion_rate : ℚ
deriving DecidableEq

def compDefault : CompStats := ⟨0, 0, 0, 0⟩

/-- The body of the `calculate_completion_rates` loop for one stream:
completed iff `ms_played > 90000`. -/
def compStep (s : Stream) (st : CompStats) : CompStats :=
  if 90000 < s.msPlayed.getD 0 then
    { st with
      total_plays := st.total_plays + 1
      completed_plays := st.completed_plays + 1 }
  else
    { st with
      total_plays := st.total_plays + 1
      skipped_plays := st.skipped_plays + 1 }

/-- The accumulation loop of `calculate_completion_rates`. -/
def compFold (streams : List Stream) : AList String CompStats :=
  streams.foldl (fun m s => m.bump (get_song_key s) compDefault (compStep s)) []

def calculate_completion_rates (streams : List Stream) : AList String CompStats :=
  (compFold streams).mapVal
    fun _ st =>
      if 0 < st.total_plays then
        { st with completion_rate := (st.completed_plays : ℚ) / (st.total_plays : ℚ) }
      else st

/-! ### calculate_listening_density -/

/-- `datetime.strptime(...).date()`. -/
def dateOf (dt : DateTime) : Nat × Nat × Nat := (dt.year, dt.month, dt.day)

/-- The nested `daily_listens` defaultdict: per song, per calendar date,
a play count. -/
def dailyListens (streams : List Stream) : AList String (AList (Nat × Nat × Nat) Nat) :=
  streams.foldl
    (fun m s => m.bump (get_song_key s) []
      fun dm => dm.bump (dateOf s.endTime) 0 (· + 1))
    []

structure DensityDetails where
  multi_listen_days : Nat
  max_in_one_day : Nat
deriving DecidableEq

/-- Days with `>= 2` plays of the song. -/
def multiDays (dm : AList (Nat × Nat × Nat) Nat) : Nat :=
  (List.filter (fun kv => decide (2 ≤ kv.2)) dm).length

/-- `calculate_listening_density`: `(density_scores, density_details)`. -/
def calculate_listening_density (streams : List Stream) :
    AList String Nat × AList String DensityDetails :=
  let daily := dailyListens streams
  (daily.mapVal fun _ dm => multiDays dm,
   daily.mapVal fun _ dm => ⟨multiDays dm, dm.maxVal id⟩)

/-! ### calculate_consistency -/

/-- Python `set.add` on a set modelled as a duplicate-free list (only the
cardinality of the set is ever consumed). -/
def setAdd {α : Type} [DecidableEq α] (l : List α) (a : α) : List α :=
  if a ∈ l then l else l ++ [a]

/-- The week identifier the code builds: `f"{date.year}-W{date.isocalendar()[1]}"`,
i.e. the CALENDAR year paired with the ISO week number (injectively encoded
as a pair instead of a string). -/
def weekLabel (dt : DateTime) : Nat × Nat :=
  (dt.year, (isoWeekPair dt.year dt.month dt.day).2)

/-- The month identifier `f"{date.year}-{date.month:02d}"` (as a pair). -/
def monthLabel (dt : DateTime) : Nat × Nat :=
  (dt.year, dt.month)

def songWeeks (streams : List Stream) : AList String (List (Nat × Nat)) :=
  streams.foldl
    (fun m s => m.bump (get_song_key s) [] fun l => setAdd l (weekLabel s.endTime)) []

def songMonths (streams : List Stream) : AList String (List (Nat × Nat)) :=
  streams.foldl
    (fun m s => m.bump (get_song_key s) [] fun l => setAdd l (monthLabel s.endTime)) []

structure ConsistencyDetails where
  weeks : Nat
  months : Nat
deriving DecidableEq

/-- `calculate_consistency`: `(consistency_scores, consistency_details)`. -/
def calculate_consistency (streams : List Stream) :
    AList String Nat × AList String ConsistencyDetails :=
  let sw := songWeeks streams
  let sm := songMonths streams
  (sw.mapVal fun _ l => l.length,
   sw.mapVal fun k l => ⟨l.length, (sm.getD k []).length⟩)

/-! ### calculate_weighted_score -/

structure ScoreBreakdown where
  total : ℚ
  minutes : ℚ
  sessions : ℚ
  completion : ℚ
  density : ℚ
  consistency : ℚ
deriving DecidableEq

/-- `max(s['total_ms'] for s in basic_stats.values())` with `0` on empty
(the empty case is routed to the fault branch by the caller below, matching
Python's `ValueError` on `max` of an empty sequence). -/
def maxMsAll (basic : AList String BasicStats) : Nat :=
  basic.maxVal BasicStats.total_ms

/-- The `max_minutes` normalizer: the maximum `total_ms` over ALL of
`basic_stats` (not just the eligible cohort), divided by 60000.  It has no
guard against a zero value. -/
def max_minutes (basic : AList String BasicStats) : ℚ :=
  (maxMsAll basic : ℚ) / 60000

/-- The `max_sessions` / `max_density` / `max_consistency` normalizers:
`max(m.values()) if m else 1`.  The fallback `1` fires only for an EMPTY
dictionary; a non-empty dictionary whose maximum is `0` yields `0`. -/
def maxOr1 (m : AList String Nat) : ℚ :=
  if m.keys = [] then 1 else (m.maxVal id : ℚ)

/-- `completion_rates.get(song_key, {}).get('completion_rate', 0)`. -/
def completionOf (cr : AList String CompStats) (k : String) : ℚ :=
  match cr.lookup? k with
  | none => 0
  | some st => st.completion_rate

/-- The exact condition under which one of the four score normalizations
divides by zero.  It is stated on the integer maxima so that it is
computable by reduction; `zeroDenomB_iff` proves it equivalent to the four
rational denominators (`max_minutes`, three `maxOr1`) being zero, which is
when Python raises `ZeroDivisionError`. -/
def zeroDenomB (basic : AList String BasicStats) (ss ds cs : AList String Nat) : Bool :=
  decide (maxMsAll basic = 0)
    || (!decide (AList.keys ss = []) && decide (AList.maxVal ss id = 0))
    || (!decide (AList.keys ds = []) && decide (AList.maxVal ds id = 0))
    || (!decide (AList.keys cs = []) && decide (AList.maxVal cs id = 0))

/-- `calculate_weighted_score`.  `none` models a raised exception: a
`KeyError` on `basic_stats[song_key]` (which also covers `max()` over an
empty `basic_stats`) or a `ZeroDivisionError` on any of the four
normalizations — the divisions fault exactly when their denominator is
zero. -/
def calculate_weighted_score (song_key : String)
    (basic_stats : AList String BasicStats)
    (session_starters : AList String Nat)
    (completion_rates : AList String CompStats)
    (density_scores : AList String Nat)
    (consistency_scores : AList String Nat) : Option ScoreBreakdown :=
  match basic_stats.lookup? song_key with
  | none => none
  | some bs =>
    if zeroDenomB basic_stats session_starters density_scores consistency_scores then
      none
    else
      let minutes_score := ((bs.total_ms : ℚ) / 60000) / max_minutes basic_stats
      let sessions_score :=
        (session_starters.getD song_key 0 : ℚ) / maxOr1 session_starters
      let completion_score := completionOf completion_rates song_key
      let density_score := (density_scores.getD song_key 0 : ℚ) / maxOr1 density_scores
      let consistency_score :=
        (consistency_scores.getD song_key 0 : ℚ) / maxOr1 consistency_scores
      some
        { total :=
            minutes_score * (25 / 100) + sessions_score * (30 / 100) +
              completion_score * (25 / 100) + density_score * (15 / 100) +
              consistency_score * (5 / 100)
          minutes := minutes_score
          sessions := sessions_score
          completion := completion_score
          density := density_score
          consistency := consistency_score }

/-! ### generate_reports / print_ranking -/

/-- The cohort filter of `generate_reports`:
`{k: v for k, v in basic_stats.items() if v['play_count'] >= 3}`. -/
def filtered_songs (basic : AList String BasicStats) : AList String BasicStats :=
  basic.filt fun _ v => decide (3 ≤ v.play_count)

/-- `calculate_weighted_score` exactly as `generate_reports` invokes it:
on the five dictionaries computed by the pipeline from the event store. -/
def pipelineScores (streams : List Stream) (song_key : String) : Option ScoreBreakdown :=
  calculate_weighted_score song_key
    (analyze_basic_metrics streams)
    (detect_session_starters streams)
    (calculate_completion_rates streams)
    (calculate_listening_density streams).1
    (calculate_consistency streams).1

/-- The ranked key list of `print_ranking`:
`sorted(songs.keys(), key=sort_key, reverse=True)[:limit]` (descending by
`sort_key`, stable, truncated). -/
def rankedKeys (songs : AList String BasicStats) (sortKey : String → ℚ)
    (limit : Nat) : List String :=
  (List.insertionSort (fun a b => sortKey b ≤ sortKey a) songs.keys).take limit

/-! ### Claim-side (specification) definitions -/

/-- The song keys of the events the spec designates as session starters among
the events AFTER the first one: an event whose gap in minutes from the
previous event is `>= 30`. -/
def laterStarterKeys (prev : Stream) : List Stream → List String
  | [] => []
  | s :: rest =>
      (if 30 ≤ gapMinutes prev s then [get_song_key s] else []) ++ laterStarterKeys s rest

/-- The song keys of all session-starting events per the spec: the first
event of the sequence, plus every later event whose gap from its predecessor
is `>= 30` minutes. -/
def starterKeys : List Stream → List String
  | [] => []
  | s :: rest => get_song_key s :: laterStarterKeys s rest

/-- The number of adjacent gaps of `>= 30` minutes in the event sequence. -/
def gapCount : List Stream → Nat
  | s :: s' :: rest => (if 30 ≤ gapMinutes s s' then 1 else 0) + gapCount (s' :: rest)
  | _ => 0

/-- The `total_ms` maximum the spec prescribes for normalization: taken only
over the eligible cohort (tracks with `play_count >= 3`). -/
def specEligibleMaxMs (basic : AList String BasicStats) : Nat :=
  maxMsAll (filtered_songs basic)

/-- Restriction of a per-track metric dictionary to the eligible cohort. -/
def restrictEligible (basic : AList String BasicStats) (m : AList String Nat) :
    AList String Nat :=
  m.filt fun k _ => decide (k ∈ (filtered_songs basic).keys)

/-- A metric maximum the spec prescribes: taken only over entries of the
eligible cohort. -/
def specEligibleMaxNat (basic : AList String BasicStats) (m : AList String Nat) : Nat :=
  (restrictEligible basic m).maxVal id

/-- The distinct-week count the spec prescribes: the number of distinct
ISO-8601 week identifiers — the pair (ISO year, ISO week number), exactly
`date.isocalendar()[:2]` — among the track's events. -/
def specIsoDistinctWeeks (streams : List Stream) (k : String) : Nat :=
  (((streams.filter fun s => decide (get_song_key s = k)).map
      fun s => isoWeekPair s.endTime.year s.endTime.month s.endTime.day).dedup).length

/-! ### Concrete inputs for witnesses and counterexamples -/

/-- An event with both names present. -/
def mkStream (t a : String) (y mo d h mi ms : Nat) : Stream :=
  ⟨some t, some a, ⟨y, mo, d, h, mi⟩, some ms⟩

def keyA : String := "A|||X"

def keyC : String := "C|||X"

def keyD : String := "D|||X"

def keyT : String := "T|||X"

/-- The spec's session scenario: three events of one track at 10:00, 10:20
and 11:05 (each played past the completion threshold, all on one day). -/
def scenC4 : List Stream :=
  [mkStream "A" "X" 2024 12 5 10 0 120000,
   mkStream "A" "X" 2024 12 5 10 20 120000,
   mkStream "A" "X" 2024 12 5 11 5 120000]

/-- Cohort for C1: eligible track A (3 plays, 60000 ms each) next to the
ineligible track B (1 play, 600000 ms) holding the global maximum. -/
def exC1 : List Stream :=
  [mkStream "A" "X" 2024 12 5 10 0 60000,
   mkStream "A" "X" 2024 12 5 10 20 60000,
   mkStream "A" "X" 2024 12 5 11 5 60000,
   mkStream "B" "Y" 2024 12 6 10 0 600000]

/-- Cohort for C2: a single eligible track with `ms_played = 0` everywhere
and one play per day (so the minutes and density maxima are both 0). -/
def exC2 : List Stream :=
  [mkStream "C" "X" 2024 12 5 10 0 0,
   mkStream "C" "X" 2024 12 6 10 0 0,
   mkStream "C" "X" 2024 12 7 10 0 0]

/-- Two events of one track inside the same ISO week (2025-W01) but in
different calendar years. -/
def exC3 : List Stream :=
  [mkStream "D" "X" 2024 12 30 10 0 120000,
   mkStream "D" "X" 2025 1 1 10 0 120000]

/-- An event played for 95000 ms (just above the completion threshold). -/
def ev95 : Stream := mkStream "T" "X" 2024 12 5 10 0 95000

/-- An event played for exactly 90000 ms (on the threshold). -/
def ev90 : Stream := mkStream "T" "X" 2024 12 5 10 0 90000

/-- An event strictly before the cutoff date. -/
def evBefore : Stream := mkStream "E" "X" 2024 11 30 23 59 120000

/-- An event exactly at the cutoff instant 2024-12-01 00:00. -/
def evAt : Stream := mkStream "F" "X" 2024 12 1 0 0 120000

/-- Two distinct events sharing one timestamp (a sort tie). -/
def evTie1 : Stream := mkStream "G" "X" 2024 12 5 10 0 120000

def evTie2 : Stream := mkStream "H" "X" 2024 12 5 10 0 120000

/-- Track "a|||b" by artist "c": key "a|||b|||c". -/
def sC10a : Stream := mkStream "a|||b" "c" 2024 12 5 10 0 120000

/-- Track "a" by artist "b|||c": the same key "a|||b|||c". -/
def sC10b : Stream := mkStream "a" "b|||c" 2024 12 5 10 20 120000

/-- The completion statistics the pipeline stores for `keyT` on the input
`[ev95]` (read back out of the computed dictionary). -/
def stC7 : CompStats :=
  (AList.lookup? (calculate_completion_rates [ev95]) keyT).getD compDefault

/-- The score breakdown the pipeline computes for `keyA` on the scenario
input `scenC4` (read back out of the computed option). -/
def sbC6 : ScoreBreakdown :=
  (pipelineScores scenC4 keyA).getD ⟨0, 0, 0, 0, 0, 0⟩

/-- The score breakdown the pipeline computes for `keyA` on the input
`exC1`. -/
def sbC1 : ScoreBreakdown :=
  (pipelineScores exC1 keyA).getD ⟨0, 0, 0, 0, 0, 0⟩

end Wrapped

/-! ## Lemmas about the dictionary model -/

namespace Wrapped

namespace AList

variable {K V : Type} [DecidableEq K]

theorem lookup?_nil (k : K) : lookup? ([] : AList K V) k = none := rfl

theorem lookup?_cons (k' : K) (v : V) (rest : AList K V) (k : K) :
    lookup? ((k', v) :: rest) k = if k' = k then some v else lookup? rest k := rfl

theorem bump_nil (k : K) (d : V) (f : V → V) :
    bump ([] : AList K V) k d f = [(k, f d)] := rfl

theorem bump_cons (k' : K) (v : V) (rest : AList K V) (k : K) (d : V) (f : V → V) :
    bump ((k', v) :: rest) k d f =
      if k' = k then (k', f v) :: rest else (k', v) :: bump rest k d f := rfl

theorem keys_nil : keys ([] : AList K V) = [] := rfl

theorem keys_cons (kv : K × V) (rest : AList K V) :
    keys (kv :: rest) = kv.1 :: keys rest := rfl

theorem maxVal_nil (f : V → Nat) : maxVal ([] : AList K V) f = 0 := rfl

theorem maxVal_cons (kv : K × V) (rest : AList K V) (f : V → Nat) :
    maxVal (kv :: rest) f = max (f kv.2) (maxVal rest f) := rfl

theorem sumVal_nil : sumVal ([] : AList K Nat) = 0 := rfl

theorem sumVal_cons (kv : K × Nat) (rest : AList K Nat) :
    sumVal (kv :: rest) = kv.2 + sumVal rest := rfl

theorem lookup?_eq_none_iff {m : AList K V} {k : K} :
    lookup? m k = none ↔ k ∉ keys m := by
  induction m with
  | nil => simp [lookup?_nil, keys_nil]
  | cons kv rest ih =>
    obtain ⟨k', v⟩ := kv
    by_cases h : k' = k
    · subst h
      simp [lookup?_cons, keys_cons]
    · simp only [lookup?_cons, if_neg h, keys_cons, List.mem_cons, ih]
      constructor
      · rintro hnm (h1 | h2)
        · exact h h1.symm
        · exact hnm h2
      · intro hnm
        exact fun h2 => hnm (Or.inr h2)

theorem mem_of_lookup?_eq_some {m : AList K V} {k : K} {v : V}
    (h : lookup? m k = some v) : (k, v) ∈ m := by
  induction m with
  | nil => simp [lookup?_nil] at h
  | cons kv rest ih =>
    obtain ⟨k', v'⟩ := kv
    by_cases hk : k' = k
    · rw [lookup?_cons, if_pos hk] at h
      injection h with h
      exact List.mem_cons.mpr (Or.inl (Prod.ext hk.symm h.symm))
    · simp only [lookup?_cons, if_neg hk] at h
      exact List.mem_cons_of_mem _ (ih h)

theorem lookup?_eq_some_of_mem_nodup {m : AList K V} (hn : (keys m).Nodup)
    {k : K} {v : V} (hm : (k, v) ∈ m) : lookup? m k = some v := by
  induction m with
  | nil => simp at hm
  | cons kv rest ih =>
    obtain ⟨k', v'⟩ := kv
    rw [keys_cons, List.nodup_cons] at hn
    rcases List.mem_cons.mp hm with h | h
    · have h1 : k = k' := congrArg Prod.fst h
      have h2 : v = v' := congrArg Prod.snd h
      rw [lookup?_cons, if_pos h1.symm, h2]
    · have hk : k' ≠ k := by
        intro he
        refine hn.1 ?_
        rw [he]
        exact List.mem_map.mpr ⟨(k, v), h, rfl⟩
      rw [lookup?_cons, if_neg hk]
      exact ih hn.2 h

theorem lookup?_bump (m : AList K V) (k q : K) (d : V) (f : V → V) :
    lookup? (bump m k d f) q =
      if k = q then some (f (getD m k d)) else lookup? m q := by
  induction m with
  | nil =>
    by_cases h : k = q <;> simp [bump_nil, lookup?_cons, lookup?_nil, getD, h]
  | cons kv rest ih =>
    obtain ⟨k', v⟩ := kv
    by_cases hk : k' = k
    · subst hk
      by_cases hq : k' = q <;>
        simp [bump_cons, lookup?_cons, getD, hq]
    · by_cases hq : k' = q
      · subst hq
        have hkq : ¬ k = k' := fun h => hk h.symm
        simp [bump_cons, hk, lookup?_cons, hkq]
      · simp only [bump_cons, if_neg hk, lookup?_cons, if_neg hq, ih, getD, if_neg hk]

theorem getD_bump (m : AList K V) (k q : K) (d : V) (f : V → V) :
    getD (bump m k d f) q d = if k = q then f (getD m k d) else getD m q d := by
  rw [getD, lookup?_bump]
  by_cases h : k = q <;> simp [h, getD]

theorem keys_bump (m : AList K V) (k : K) (d : V) (f : V → V) :
    keys (bump m k d f) = if k ∈ keys m then keys m else keys m ++ [k] := by
  induction m with
  | nil => simp [bump_nil, keys_cons, keys_nil]
  | cons kv rest ih =>
    obtain ⟨k', v⟩ := kv
    by_cases hk : k' = k
    · subst hk
      simp [bump_cons, keys_cons]
    · have hkq : ¬ k = k' := fun h => hk h.symm
      by_cases hm : k ∈ keys rest <;>
        simp [bump_cons, hk, keys_cons, hm, ih, hkq]

theorem nodup_keys_bump {m : AList K V} (hn : (keys m).Nodup) (k : K) (d : V)
    (f : V → V) : (keys (bump m k d f)).Nodup := by
  rw [keys_bump]
  by_cases h : k ∈ keys m
  · simp [h, hn]
  · simp [h, List.nodup_append, hn]

theorem mem_bump {m : AList K V} {k : K} {d : V} {f : V → V} {kv : K × V}
    (h : kv ∈ bump m k d f) : kv ∈ m ∨ kv = (k, f (getD m k d)) := by
  induction m with
  | nil =>
    rw [bump_nil] at h
    right
    simpa [getD, lookup?_nil] using h
  | cons kv' rest ih =>
    obtain ⟨k', v⟩ := kv'
    by_cases hk : k' = k
    · subst hk
      rw [bump_cons, if_pos rfl] at h
      rcases List.mem_cons.mp h with h | h
      · right; simp [h, getD, lookup?_cons]
      · left; exact List.mem_cons_of_mem _ h
    · rw [bump_cons, if_neg hk] at h
      rcases List.mem_cons.mp h with h | h
      · left; simp [h]
      · rcases ih h with h' | h'
        · left; exact List.mem_cons_of_mem _ h'
        · right
          simpa [getD, lookup?_cons, hk] using h'

theorem bump_ne_nil (m : AList K V) (k : K) (d : V) (f : V → V) :
    bump m k d f ≠ [] := by
  cases m with
  | nil => simp [bump_nil]
  | cons kv rest =>
    obtain ⟨k', v⟩ := kv
    by_cases hk : k' = k <;> simp [bump_cons, hk]

theorem lookup?_mapVal {W : Type} (m : AList K V) (g : K → V → W) (q : K) :
    lookup? (mapVal m g) q = (lookup? m q).map (g q) := by
  induction m with
  | nil => simp [mapVal, lookup?_nil]
  | cons kv rest ih =>
    obtain ⟨k', v⟩ := kv
    by_cases h : k' = q
    · subst h
      simp [mapVal, lookup?_cons]
    · simpa [mapVal, lookup?_cons, h] using ih

theorem keys_mapVal {W : Type} (m : AList K V) (g : K → V → W) :
    keys (mapVal m g) = keys m := by
  simp [mapVal, keys]

theorem le_maxVal_of_mem {m : AList K V} {kv : K × V} (h : kv ∈ m)
    (f : V → Nat) : f kv.2 ≤ maxVal m f := by
  induction m with
  | nil => simp at h
  | cons kv' rest ih =>
    rcases List.mem_cons.mp h with h | h
    · rw [h, maxVal_cons]
      exact le_max_left _ _
    · exact le_trans (ih h) (le_trans (le_max_right _ _) (le_of_eq (maxVal_cons _ _ _).symm))

theorem maxVal_filter_le (m : AList K V) (p : K × V → Bool) (f : V → Nat) :
    maxVal (List.filter p m) f ≤ maxVal m f := by
  induction m with
  | nil => simp [maxVal_nil]
  | cons kv rest ih =>
    by_cases h : p kv
    · rw [List.filter_cons_of_pos h, maxVal_cons, maxVal_cons]
      exact max_le_max (le_refl _) ih
    · rw [List.filter_cons_of_neg (by simp [h]), maxVal_cons]
      exact le_trans ih (le_max_right _ _)

theorem one_le_maxVal {m : AList K V} {f : V → Nat} (hm : m ≠ [])
    (h : ∀ kv ∈ m, 1 ≤ f kv.2) : 1 ≤ maxVal m f := by
  cases m with
  | nil => exact absurd rfl hm
  | cons kv rest =>
    rw [maxVal_cons]
    exact le_trans (h kv (List.mem_cons_self _ _)) (le_max_left _ _)

theorem sumVal_bump_succ (m : AList K Nat) (k : K) :
    sumVal (bump m k 0 (· + 1)) = sumVal m + 1 := by
  induction m with
  | nil => simp [bump_nil, sumVal_cons, sumVal_nil]
  | cons kv rest ih =>
    obtain ⟨k', v⟩ := kv
    by_cases hk : k' = k
    · subst hk
      rw [bump_cons, if_pos rfl, sumVal_cons, sumVal_cons]
      omega
    · rw [bump_cons, if_neg hk, sumVal_cons, sumVal_cons, ih]
      omega

theorem keys_eq_nil_iff {m : AList K V} : keys m = [] ↔ m = [] := by
  cases m <;> simp [keys_nil, keys_cons]

end AList

/-! ## Lemmas about dictionary-building folds -/

/-- Projecting one key out of an accumulation loop `for a in l: m[key(a)] =
step(a, m[key(a)])` over a `defaultdict`: the key's final value is the fold
of `step` over exactly the elements of `l` whose key matches. -/
theorem getD_foldl_bump {α K V : Type} [DecidableEq K] (keyOf : α → K) (d : V)
    (step : α → V → V) (l : List α) (m : AList K V) (q : K) :
    AList.getD (l.foldl (fun m a => AList.bump m (keyOf a) d (step a)) m) q d
      = (l.filter fun a => decide (keyOf a = q)).foldl
          (fun v a => step a v) (AList.getD m q d) := by
  induction l generalizing m with
  | nil => rfl
  | cons a l ih =>
    rw [List.foldl_cons, List.filter_cons, ih, AList.getD_bump]
    by_cases h : keyOf a = q
    · rw [if_pos h, if_pos (by simp [h]), List.foldl_cons, h]
    · rw [if_neg h, if_neg (by simp [h])]

/-- A key is absent from the built dictionary iff it was absent initially and
no element of the loop carries it. -/
theorem lookup?_foldl_bump_eq_none {α K V : Type} [DecidableEq K] (keyOf : α → K)
    (d : V) (step : α → V → V) (l : List α) (m : AList K V) (q : K) :
    AList.lookup? (l.foldl (fun m a => AList.bump m (keyOf a) d (step a)) m) q = none
      ↔ AList.lookup? m q = none ∧ q ∉ l.map keyOf := by
  induction l generalizing m with
  | nil => simp
  | cons a l ih =>
    rw [List.foldl_cons, ih, AList.lookup?_bump]
    by_cases h : keyOf a = q
    · simp [h]
    · simp only [if_neg h, List.map_cons, List.mem_cons]
      constructor
      · rintro ⟨h1, h2⟩
        exact ⟨h1, fun hc => hc.elim (fun he => h he.symm) h2⟩
      · rintro ⟨h1, h2⟩
        exact ⟨h1, fun hc => h2 (Or.inr hc)⟩

/-- The built dictionary has duplicate-free keys. -/
theorem nodup_keys_foldl_bump {α K V : Type} [DecidableEq K] (keyOf : α → K)
    (d : V) (step : α → V → V) (l : List α) (m : AList K V)
    (hm : (AList.keys m).Nodup) :
    (AList.keys (l.foldl (fun m a => AList.bump m (keyOf a) d (step a)) m)).Nodup := by
  induction l generalizing m with
  | nil => exact hm
  | cons a l ih => exact ih _ (AList.nodup_keys_bump hm _ _ _)

/-- A value invariant preserved by every bump holds for every value of the
built dictionary. -/
theorem valP_foldl_bump {α K V : Type} [DecidableEq K] (keyOf : α → K) (d : V)
    (step : α → V → V) (P : V → Prop) (hstep : ∀ a v, P (step a v))
    (l : List α) (m : AList K V) (hm : ∀ kv ∈ m, P kv.2) :
    ∀ kv ∈ l.foldl (fun m a => AList.bump m (keyOf a) d (step a)) m, P kv.2 := by
  induction l generalizing m with
  | nil => exact hm
  | cons a l ih =>
    refine ih _ fun kv hkv => ?_
    rcases AList.mem_bump hkv with h | h
    · exact hm kv h
    · rw [h]
      exact hstep a _

/-- A dictionary that starts non-empty stays non-empty through the loop. -/
theorem foldl_bump_ne_nil {α K V : Type} [DecidableEq K] (keyOf : α → K) (d : V)
    (step : α → V → V) (l : List α) (m : AList K V) (hm : m ≠ []) :
    l.foldl (fun m a => AList.bump m (keyOf a) d (step a)) m ≠ [] := by
  induction l generalizing m with
  | nil => exact hm
  | cons a l ih => exact ih _ (AList.bump_ne_nil _ _ _ _)

/-! ## Stability of insertion sort -/

/-- Inserting `a` moves it past only elements it is not `r`-below; a
predicate `p` whose holders are pairwise `r`-related therefore sees `a`
arrive at the front of its fiber. -/
theorem filter_orderedInsert {α : Type} (r : α → α → Prop) [DecidableRel r]
    (p : α → Bool) (hp : ∀ a b, p a = true → p b = true → r a b)
    (a : α) (l : List α) :
    (List.orderedInsert r a l).filter p =
      if p a then a :: l.filter p else l.filter p := by
  induction l with
  | nil => simp [List.orderedInsert, List.filter_cons]
  | cons b l ih =>
    by_cases hr : r a b
    · by_cases hpa : p a <;>
        simp [List.orderedInsert, if_pos hr, List.filter_cons, hpa]
    · by_cases hpa : p a
      · have hpb : p b = false := by
          rcases Bool.eq_false_or_eq_true (p b) with h | h
          · exact absurd (hp a b hpa h) hr
          · exact h
        simp [List.orderedInsert, if_neg hr, List.filter_cons, hpa, hpb, ih]
      · simp [List.orderedInsert, if_neg hr, List.filter_cons, hpa, ih]

/-- Insertion sort does not reorder the fiber of such a predicate: the sorted
list filtered by `p` is the input filtered by `p` (stability). -/
theorem filter_insertionSort {α : Type} (r : α → α → Prop) [DecidableRel r]
    (p : α → Bool) (hp : ∀ a b, p a = true → p b = true → r a b) :
    ∀ l : List α, (List.insertionSort r l).filter p = l.filter p := by
  intro l
  induction l with
  | nil => rfl
  | cons b l ih =>
    by_cases hpb : p b <;>
      simp [List.insertionSort, filter_orderedInsert r p hp, List.filter_cons, ih, hpb]

/-! ## calculate_completion_rates: characterization -/

theorem compFold_getD (streams : List Stream) (k : String) :
    AList.getD (compFold streams) k compDefault
      = (streams.filter fun s => decide (get_song_key s = k)).foldl
          (fun v s => compStep s v) compDefault :=
  getD_foldl_bump get_song_key compDefault compStep streams [] k

theorem foldl_compStep_completed (l : List Stream) (v0 : CompStats) :
    (l.foldl (fun v s => compStep s v) v0).completed_plays
      = v0.completed_plays + l.countP fun s => decide (90000 < s.msPlayed.getD 0) := by
  induction l generalizing v0 with
  | nil => simp
  | cons s l ih =>
    rw [List.foldl_cons, ih, List.countP_cons]
    by_cases h : 90000 < s.msPlayed.getD 0 <;> simp [compStep, h] <;> omega

theorem foldl_compStep_skipped (l : List Stream) (v0 : CompStats) :
    (l.foldl (fun v s => compStep s v) v0).skipped_plays
      = v0.skipped_plays + l.countP fun s => decide (s.msPlayed.getD 0 ≤ 90000) := by
  induction l generalizing v0 with
  | nil => simp
  | cons s l ih =>
    rw [List.foldl_cons, ih, List.countP_cons]
    by_cases h : 90000 < s.msPlayed.getD 0 <;>
      simp [compStep, h, Nat.not_lt.mp, Nat.not_le.mpr] <;> omega

theorem foldl_compStep_total (l : List Stream) (v0 : CompStats) :
    (l.foldl (fun v s => compStep s v) v0).total_plays = v0.total_plays + l.length := by
  induction l generalizing v0 with
  | nil => simp
  | cons s l ih =>
    rw [List.foldl_cons, ih]
    by_cases h : 90000 < s.msPlayed.getD 0 <;> simp [compStep, h] <;> omega

theorem foldl_compStep_rate (l : List Stream) (v0 : CompStats) :
    (l.foldl (fun v s => compStep s v) v0).completion_rate = v0.completion_rate := by
  induction l generalizing v0 with
  | nil => rfl
  | cons s l ih =>
    rw [List.foldl_cons, ih]
    by_cases h : 90000 < s.msPlayed.getD 0 <;> simp [compStep, h]

/-- The post-pass of `calculate_completion_rates` applied to a key's folded
statistics. -/
def ratePost (st : CompStats) : CompStats :=
  if 0 < st.total_plays then
    { st with completion_rate := (st.completed_plays : ℚ) / (st.total_plays : ℚ) }
  else st

theorem ccr_lookup?_eq (streams : List Stream) (k : String) :
    AList.lookup? (calculate_completion_rates streams) k
      = (AList.lookup? (compFold streams) k).map ratePost := by
  rw [calculate_completion_rates, AList.lookup?_mapVal]
  rfl

theorem ccr_getD_eq (streams : List Stream) (k : String) :
    AList.getD (calculate_completion_rates streams) k compDefault
      = ratePost (AList.getD (compFold streams) k compDefault) := by
  rw [AList.getD, ccr_lookup?_eq, AList.getD]
  cases h0 : AList.lookup? (compFold streams) k with
  | none => simp [ratePost, compDefault]
  | some st => simp

theorem ratePost_completed (st : CompStats) :
    (ratePost st).completed_plays = st.completed_plays := by
  rw [ratePost]
  by_cases h : 0 < st.total_plays <;> simp [h]

theorem ratePost_skipped (st : CompStats) :
    (ratePost st).skipped_plays = st.skipped_plays := by
  rw [ratePost]
  by_cases h : 0 < st.total_plays <;> simp [h]

theorem ratePost_total (st : CompStats) :
    (ratePost st).total_plays = st.total_plays := by
  rw [ratePost]
  by_cases h : 0 < st.total_plays <;> simp [h]

/-- The `completion_rate` stored for any key present in the output of
`calculate_completion_rates` is the guarded quotient, and the completed
count never exceeds the total count. -/
theorem ccr_value_spec (streams : List Stream) (k : String) (st : CompStats)
    (h : AList.lookup? (calculate_completion_rates streams) k = some st) :
    st.completion_rate
        = (if st.total_plays = 0 then 0
           else (st.completed_plays : ℚ) / (st.total_plays : ℚ))
      ∧ st.completed_plays ≤ st.total_plays := by
  rw [ccr_lookup?_eq] at h
  cases h0 : AList.lookup? (compFold streams) k with
  | none => rw [h0] at h; cases h
  | some st0 =>
    rw [h0] at h
    have hst : st = ratePost st0 := by
      rw [Option.map_some'] at h
      injection h with h'
      exact h'.symm
    have hg : AList.getD (compFold streams) k compDefault = st0 := by
      rw [AList.getD, h0]
      rfl
    have hfold := compFold_getD streams k
    rw [hg] at hfold
    have hcomp : st0.completed_plays
        = (streams.filter fun s => decide (get_song_key s = k)).countP
            fun s => decide (90000 < s.msPlayed.getD 0) := by
      rw [hfold, foldl_compStep_completed]
      simp [compDefault]
    have htot : st0.total_plays
        = (streams.filter fun s => decide (get_song_key s = k)).length := by
      rw [hfold, foldl_compStep_total]
      simp [compDefault]
    have hle : st0.completed_plays ≤ st0.total_plays := by
      rw [hcomp, htot]
      exact List.countP_le_length _
    have hrate : st0.completion_rate = 0 := by
      rw [hfold, foldl_compStep_rate]
      rfl
    rw [hst, ratePost]
    by_cases hpos : 0 < st0.total_plays
    · rw [if_pos hpos]
      constructor
      · simp [Nat.pos_iff_ne_zero.mp hpos]
      · simpa using hle
    · rw [if_neg hpos]
      have h0' : st0.total_plays = 0 := Nat.eq_zero_of_not_pos hpos
      refine ⟨?_, hle⟩
      rw [h0', if_pos rfl, hrate]

/-- Bounds on any stored completion rate. -/
theorem ccr_rate_bounds (streams : List Stream) (k : String) (st : CompStats)
    (h : AList.lookup? (calculate_completion_rates streams) k = some st) :
    0 ≤ st.completion_rate ∧ st.completion_rate ≤ 1 := by
  obtain ⟨hrate, hle⟩ := ccr_value_spec streams k st h
  rw [hrate]
  by_cases h0 : st.total_plays = 0
  · simp [h0]
  · rw [if_neg h0]
    have ht : (0 : ℚ) < (st.total_plays : ℚ) := by
      exact_mod_cast Nat.pos_of_ne_zero h0
    constructor
    · positivity
    · rw [div_le_one ht]
      exact_mod_cast hle

/-! ## detect_session_starters: characterization -/

theorem dssGo_eq_foldl (prev : Stream) (l : List Stream) (acc : AList String Nat) :
    dssGo prev l acc
      = (laterStarterKeys prev l).foldl (fun m k => AList.bump m k 0 (· + 1)) acc := by
  induction l generalizing prev acc with
  | nil => rfl
  | cons s rest ih =>
    by_cases h : 30 ≤ gapMinutes prev s <;>
      simp [dssGo, laterStarterKeys, h, sessionBump, ih]

theorem dss_eq_foldl (streams : List Stream) :
    detect_session_starters streams
      = (starterKeys streams).foldl (fun m k => AList.bump m k 0 (· + 1)) [] := by
  cases streams with
  | nil => rfl
  | cons s rest =>
    rw [detect_session_starters, dssGo_eq_foldl, starterKeys, List.foldl_cons]
    rfl

theorem foldl_add_one (l : List String) (n : Nat) :
    l.foldl (fun v (_ : String) => v + 1) n = n + l.length := by
  induction l generalizing n with
  | nil => rfl
  | cons a l ih =>
    simp only [List.foldl_cons, List.length_cons]
    rw [ih]
    omega

theorem dss_getD_eq_count (streams : List Stream) (k : String) :
    AList.getD (detect_session_starters streams) k 0 = (starterKeys streams).count k := by
  rw [dss_eq_foldl]
  have h := getD_foldl_bump (fun (k : String) => k) 0 (fun _ v => v + 1)
    (starterKeys streams) [] k
  rw [h]
  have hc : ((starterKeys streams).filter fun a => decide (a = k)).foldl
      (fun v (_ : String) => v + 1) (AList.getD [] k 0)
        = ((starterKeys streams).filter fun a => decide (a = k)).length := by
    rw [foldl_add_one]
    simp [AList.getD, AList.lookup?_nil]
  rw [hc, List.count_eq_countP, List.countP_eq_length_filter]
  congr 1

theorem sumVal_foldl_bump (ks : List String) (m : AList String Nat) :
    AList.sumVal (ks.foldl (fun m k => AList.bump m k 0 (· + 1)) m)
      = AList.sumVal m + ks.length := by
  induction ks generalizing m with
  | nil => rfl
  | cons k ks ih =>
    simp only [List.foldl_cons, List.length_cons]
    rw [ih, AList.sumVal_bump_succ]
    omega

theorem length_laterStarterKeys (prev : Stream) (l : List Stream) :
    (laterStarterKeys prev l).length = gapCount (prev :: l) := by
  induction l generalizing prev with
  | nil => rfl
  | cons s rest ih =>
    by_cases h : 30 ≤ gapMinutes prev s <;>
      simp [laterStarterKeys, gapCount, h, ih] <;> omega

/-! ## calculate_consistency: characterization -/

theorem toFinset_setAdd {α : Type} [DecidableEq α] (l : List α) (a : α) :
    (setAdd l a).toFinset = insert a l.toFinset := by
  rw [setAdd]
  by_cases h : a ∈ l
  · rw [if_pos h]
    exact (Finset.insert_eq_self.mpr (List.mem_toFinset.mpr h)).symm
  · rw [if_neg h]
    simp [List.toFinset_append, Finset.union_comm, Finset.insert_eq]

theorem nodup_setAdd {α : Type} [DecidableEq α] {l : List α} (h : l.Nodup) (a : α) :
    (setAdd l a).Nodup := by
  rw [setAdd]
  by_cases hm : a ∈ l
  · rwa [if_pos hm]
  · rw [if_neg hm]
    simp [List.nodup_append, h, hm]

theorem setAdd_ne_nil {α : Type} [DecidableEq α] (l : List α) (a : α) :
    setAdd l a ≠ [] := by
  rw [setAdd]
  by_cases hm : a ∈ l
  · rw [if_pos hm]
    intro hc
    rw [hc] at hm
    simp at hm
  · rw [if_neg hm]
    simp

theorem toFinset_foldl_setAdd {α : Type} [DecidableEq α] (l : List α) (init : List α) :
    (l.foldl setAdd init).toFinset = init.toFinset ∪ l.toFinset := by
  induction l generalizing init with
  | nil => simp
  | cons x l ih =>
    rw [List.foldl_cons, ih, toFinset_setAdd]
    simp [List.toFinset_cons, Finset.insert_union, Finset.union_insert]

theorem nodup_foldl_setAdd {α : Type} [DecidableEq α] (l init : List α)
    (h : init.Nodup) : (l.foldl setAdd init).Nodup := by
  induction l generalizing init with
  | nil => exact h
  | cons x l ih => exact ih _ (nodup_setAdd h x)

theorem length_foldl_setAdd {α : Type} [DecidableEq α] (l : List α) :
    (l.foldl setAdd []).length = l.dedup.length := by
  have h1 : (l.foldl setAdd []).toFinset = l.toFinset := by
    simpa using toFinset_foldl_setAdd l []
  have h2 : (l.foldl setAdd []).Nodup := nodup_foldl_setAdd l [] List.nodup_nil
  rw [← List.toFinset_card_of_nodup h2, h1, List.card_toFinset]

theorem songWeeks_getD (streams : List Stream) (k : String) :
    AList.getD (songWeeks streams) k []
      = ((streams.filter fun s => decide (get_song_key s = k)).map
          fun s => weekLabel s.endTime).foldl setAdd [] := by
  have h := getD_foldl_bump get_song_key ([] : List (Nat × Nat))
    (fun s l => setAdd l (weekLabel s.endTime)) streams [] k
  rw [songWeeks, h, List.foldl_map]
  rfl

theorem consistency_getD (streams : List Stream) (k : String) :
    AList.getD (calculate_consistency streams).1 k 0
      = (AList.getD (songWeeks streams) k []).length := by
  show AList.getD (AList.mapVal (songWeeks streams) fun _ l => l.length) k 0
      = (AList.getD (songWeeks streams) k []).length
  rw [AList.getD, AList.lookup?_mapVal, AList.getD]
  cases h0 : AList.lookup? (songWeeks streams) k with
  | none => simp
  | some l => simp

/-! ## calculate_weighted_score: groundwork -/

theorem nodup_keys_basic (streams : List Stream) :
    (AList.keys (analyze_basic_metrics streams)).Nodup := by
  rw [analyze_basic_metrics]
  exact nodup_keys_foldl_bump get_song_key basicDefault basicStep streams []
    (by rw [AList.keys_nil]; exact List.nodup_nil)

theorem div_bounds_of_le_of_pos {a b : ℚ} (ha : 0 ≤ a) (hab : a ≤ b) (hb : 0 < b) :
    0 ≤ a / b ∧ a / b ≤ 1 :=
  ⟨div_nonneg ha hb.le, (div_le_one hb).mpr hab⟩

/-- The minutes component of the score is in `[0, 1]` whenever the lookup
succeeds and the division does not fault. -/
theorem minutes_score_bounds (basic : AList String BasicStats) (k : String)
    (bs : BasicStats) (h : AList.lookup? basic k = some bs)
    (hz : ¬ max_minutes basic = 0) :
    0 ≤ ((bs.total_ms : ℚ) / 60000) / max_minutes basic
      ∧ ((bs.total_ms : ℚ) / 60000) / max_minutes basic ≤ 1 := by
  have hle : bs.total_ms ≤ maxMsAll basic :=
    AList.le_maxVal_of_mem (AList.mem_of_lookup?_eq_some h) BasicStats.total_ms
  have h0 : 0 < max_minutes basic := by
    have hnn : (0 : ℚ) ≤ max_minutes basic := by
      rw [max_minutes]
      positivity
    exact lt_of_le_of_ne hnn (Ne.symm hz)
  refine div_bounds_of_le_of_pos (by positivity) ?_ h0
  rw [max_minutes]
  gcongr

/-- A count-metric component `value / maxOr1` is in `[0, 1]` whenever the
division does not fault. -/
theorem nat_score_bounds (m : AList String Nat) (k : String) (hz : ¬ maxOr1 m = 0) :
    0 ≤ ((AList.getD m k 0 : ℕ) : ℚ) / maxOr1 m
      ∧ ((AList.getD m k 0 : ℕ) : ℚ) / maxOr1 m ≤ 1 := by
  by_cases hm : AList.keys m = []
  · have hm' : m = [] := AList.keys_eq_nil_iff.mp hm
    subst hm'
    rw [maxOr1, if_pos (by rw [AList.keys_nil])]
    norm_num [AList.getD, AList.lookup?_nil]
  · rw [maxOr1, if_neg hm] at hz ⊢
    have hle : AList.getD m k 0 ≤ AList.maxVal m id := by
      rw [AList.getD]
      cases h : AList.lookup? m k with
      | none => simp
      | some v =>
        simpa using AList.le_maxVal_of_mem (AList.mem_of_lookup?_eq_some h) id
    have h0 : (0 : ℚ) < (AList.maxVal m id : ℚ) := by
      have hne : AList.maxVal m id ≠ 0 := by
        intro hc
        exact hz (by rw [hc]; norm_num)
      exact_mod_cast Nat.pos_of_ne_zero hne
    refine div_bounds_of_le_of_pos (by positivity) ?_ h0
    exact_mod_cast hle

/-- The completion component read out of the pipeline dictionary is in
`[0, 1]`. -/
theorem completionOf_bounds (streams : List Stream) (k : String) :
    0 ≤ completionOf (calculate_completion_rates streams) k
      ∧ completionOf (calculate_completion_rates streams) k ≤ 1 := by
  rw [completionOf]
  cases h : AList.lookup? (calculate_completion_rates streams) k with
  | none => norm_num
  | some st => exact ccr_rate_bounds streams k st h

theorem max_minutes_eq_zero_iff (basic : AList String BasicStats) :
    max_minutes basic = 0 ↔ maxMsAll basic = 0 := by
  rw [max_minutes, div_eq_zero_iff]
  norm_num

theorem maxOr1_eq_zero_iff (m : AList String Nat) :
    maxOr1 m = 0 ↔ (¬ AList.keys m = [] ∧ AList.maxVal m id = 0) := by
  rw [maxOr1]
  by_cases hm : AList.keys m = []
  · rw [if_pos hm]
    norm_num [hm]
  · rw [if_neg hm]
    rw [Nat.cast_eq_zero]
    exact ⟨fun h => ⟨hm, h⟩, fun h => h.2⟩

/-- The computable fault guard equals the rational zero-denominator
condition. -/
theorem zeroDenomB_iff (basic : AList String BasicStats) (ss ds cs : AList String Nat) :
    zeroDenomB basic ss ds cs = true
      ↔ (max_minutes basic = 0 ∨ maxOr1 ss = 0 ∨ maxOr1 ds = 0 ∨ maxOr1 cs = 0) := by
  rw [zeroDenomB]
  simp only [Bool.or_eq_true, Bool.and_eq_true, Bool.not_eq_true', decide_eq_true_eq,
    decide_eq_false_iff_not, max_minutes_eq_zero_iff, maxOr1_eq_zero_iff]
  tauto

/-- `calculate_weighted_score` raises (returns `none`) on a key present in
`basic_stats` exactly when one of the four normalizing denominators is
zero. -/
theorem cws_eq_none_iff (k : String) (basic : AList String BasicStats)
    (ss : AList String Nat) (cr : AList String CompStats)
    (ds cs : AList String Nat) (bs : BasicStats)
    (h : AList.lookup? basic k = some bs) :
    calculate_weighted_score k basic ss cr ds cs = none
      ↔ (max_minutes basic = 0 ∨ maxOr1 ss = 0 ∨ maxOr1 ds = 0 ∨ maxOr1 cs = 0) := by
  rw [calculate_weighted_score, h, ← zeroDenomB_iff basic ss ds cs]
  by_cases hz : zeroDenomB basic ss ds cs
  · simp [hz]
  · simp [hz]

/-- The session-starter dictionary of a non-empty event store is non-empty
and every stored count is at least 1, so its normalizer is nonzero. -/
theorem dss_maxOr1_ne_zero (s : Stream) (rest : List Stream) :
    maxOr1 (detect_session_starters (s :: rest)) ≠ 0 := by
  have hne : detect_session_starters (s :: rest) ≠ [] := by
    rw [dss_eq_foldl, starterKeys, List.foldl_cons]
    exact foldl_bump_ne_nil (fun (k : String) => k) 0 (fun _ v => v + 1) _ _
      (AList.bump_ne_nil _ _ _ _)
  have hval : ∀ kv ∈ detect_session_starters (s :: rest), 1 ≤ kv.2 := by
    rw [dss_eq_foldl]
    exact valP_foldl_bump (fun (k : String) => k) 0 (fun _ v => v + 1)
      (fun v => 1 ≤ v) (fun _ v => Nat.le_add_left 1 v) _ [] (by simp)
  have hmax : 1 ≤ AList.maxVal (detect_session_starters (s :: rest)) id :=
    AList.one_le_maxVal hne hval
  rw [maxOr1, if_neg (fun hc => hne (AList.keys_eq_nil_iff.mp hc))]
  intro hc
  rw [Nat.cast_eq_zero] at hc
  omega

/-- Every stored week set of `songWeeks` is non-empty. -/
theorem songWeeks_values_ne_nil (streams : List Stream) :
    ∀ kv ∈ songWeeks streams, kv.2 ≠ [] := by
  rw [songWeeks]
  exact valP_foldl_bump get_song_key [] (fun s l => setAdd l (weekLabel s.endTime))
    (fun l => l ≠ []) (fun s l => setAdd_ne_nil l _) streams [] (by simp)

theorem songWeeks_ne_nil (s : Stream) (rest : List Stream) :
    songWeeks (s :: rest) ≠ [] := by
  rw [songWeeks, List.foldl_cons]
  exact foldl_bump_ne_nil get_song_key [] (fun s l => setAdd l (weekLabel s.endTime)) _ _
    (AList.bump_ne_nil _ _ _ _)

/-- The consistency dictionary of a non-empty event store is non-empty with
all values at least 1, so its normalizer is nonzero. -/
theorem consistency_maxOr1_ne_zero (s : Stream) (rest : List Stream) :
    maxOr1 (calculate_consistency (s :: rest)).1 ≠ 0 := by
  have heq : (calculate_consistency (s :: rest)).1
      = AList.mapVal (songWeeks (s :: rest)) (fun _ l => l.length) := rfl
  have hne : (calculate_consistency (s :: rest)).1 ≠ [] := by
    rw [heq, AList.mapVal]
    simpa using songWeeks_ne_nil s rest
  have hval : ∀ kv ∈ (calculate_consistency (s :: rest)).1, 1 ≤ kv.2 := by
    rw [heq, AList.mapVal]
    intro kv hkv
    obtain ⟨⟨k0, l0⟩, hmem, hkv'⟩ := List.mem_map.mp hkv
    have hl0 : l0 ≠ [] := songWeeks_values_ne_nil (s :: rest) _ hmem
    have : 1 ≤ l0.length := List.length_pos.mpr hl0
    rw [← hkv']
    simpa using this
  have hmax : 1 ≤ AList.maxVal (calculate_consistency (s :: rest)).1 id :=
    AList.one_le_maxVal hne hval
  rw [maxOr1, if_neg (fun hc => hne (AList.keys_eq_nil_iff.mp hc))]
  intro hc
  rw [Nat.cast_eq_zero] at hc
  omega

theorem dailyListens_ne_nil (s : Stream) (rest : List Stream) :
    dailyListens (s :: rest) ≠ [] := by
  rw [dailyListens, List.foldl_cons]
  exact foldl_bump_ne_nil get_song_key []
    (fun s dm => AList.bump dm (dateOf s.endTime) 0 (· + 1)) _ _
    (AList.bump_ne_nil _ _ _ _)

theorem density_ne_nil (s : Stream) (rest : List Stream) :
    (calculate_listening_density (s :: rest)).1 ≠ [] := by
  have heq : (calculate_listening_density (s :: rest)).1
      = AList.mapVal (dailyListens (s :: rest)) (fun _ dm => multiDays dm) := rfl
  rw [heq, AList.mapVal]
  simpa using dailyListens_ne_nil s rest

/-- For a non-empty event store, the density normalizer is zero exactly when
the maximum multi-listen-day count is zero (the empty-dictionary fallback to
1 never applies). -/
theorem density_maxOr1_zero_iff (s : Stream) (rest : List Stream) :
    maxOr1 (calculate_listening_density (s :: rest)).1 = 0
      ↔ AList.maxVal (calculate_listening_density (s :: rest)).1 id = 0 := by
  rw [maxOr1,
    if_neg (fun hc => density_ne_nil s rest (AList.keys_eq_nil_iff.mp hc))]
  exact Nat.cast_eq_zero

/-! ## Claim theorems -/

/-- C5: every event is classified completed exactly when `ms_played > 90000`
and skipped otherwise — the per-track completed (resp. skipped) count is the
number of the track's events strictly above (resp. at or below) the
threshold; in particular a single event at 95000 ms is completed and one at
exactly 90000 ms is skipped. -/
theorem C5_completion_threshold :
    (∀ (streams : List Stream) (k : String),
      (AList.getD (calculate_completion_rates streams) k compDefault).completed_plays
          = streams.countP (fun s =>
              decide (90000 < s.msPlayed.getD 0) && decide (get_song_key s = k))
        ∧ (AList.getD (calculate_completion_rates streams) k compDefault).skipped_plays
          = streams.countP (fun s =>
              decide (s.msPlayed.getD 0 ≤ 90000) && decide (get_song_key s = k)))
    ∧ (AList.getD (calculate_completion_rates [ev95]) keyT compDefault).completed_plays = 1
    ∧ (AList.getD (calculate_completion_rates [ev95]) keyT compDefault).skipped_plays = 0
    ∧ (AList.getD (calculate_completion_rates [ev90]) keyT compDefault).completed_plays = 0
    ∧ (AList.getD (calculate_completion_rates [ev90]) keyT compDefault).skipped_plays = 1 := by
  refine ⟨fun streams k => ⟨?_, ?_⟩, by decide, by decide, by decide, by decide⟩
  · rw [ccr_getD_eq, ratePost_completed, compFold_getD, foldl_compStep_completed,
      List.countP_filter]
    simp [compDefault]
  · rw [ccr_getD_eq, ratePost_skipped, compFold_getD, foldl_compStep_skipped,
      List.countP_filter]
    simp [compDefault]

/-- C7: every stored completion rate equals completed over total plays, is
guarded (0 when the total is 0 rather than a fault), and lies in `[0, 1]`. -/
theorem C7_completion_rate (streams : List Stream) (k : String) (st : CompStats)
    (h : AList.lookup? (calculate_completion_rates streams) k = some st) :
    st.completion_rate
        = (if st.total_plays = 0 then 0
           else (st.completed_plays : ℚ) / (st.total_plays : ℚ))
      ∧ 0 ≤ st.completion_rate ∧ st.completion_rate ≤ 1
      ∧ (st.total_plays = 0 → st.completion_rate = 0) := by
  obtain ⟨h1, _⟩ := ccr_value_spec streams k st h
  obtain ⟨h2, h3⟩ := ccr_rate_bounds streams k st h
  refine ⟨h1, h2, h3, fun h0 => ?_⟩
  rw [h1, if_pos h0]

/-- C7 witness: `C7_completion_rate` applied to the statistics actually
stored for `keyT` on the input `[ev95]` (one play of 95000 ms). -/
theorem C7_witness :
    AList.lookup? (calculate_completion_rates [ev95]) keyT = some stC7
      ∧ (stC7.completion_rate
            = (if stC7.total_plays = 0 then 0
               else (stC7.completed_plays : ℚ) / (stC7.total_plays : ℚ))
          ∧ 0 ≤ stC7.completion_rate ∧ stC7.completion_rate ≤ 1
          ∧ (stC7.total_plays = 0 → stC7.completion_rate = 0)) :=
  ⟨rfl, C7_completion_rate [ev95] keyT stC7 rfl⟩

/-- C4: every track's session-starter count equals the number of
spec-designated starter events bearing its key (the first event, plus each
later event whose gap from its predecessor is at least 30 minutes); the
counts total `1 + (number of gaps >= 30)` for a non-empty sequence; and in
the 10:00 / 10:20 / 11:05 scenario track A's count is 2. -/
theorem C4_session_starters :
    (∀ (streams : List Stream) (k : String),
        AList.getD (detect_session_starters streams) k 0 = (starterKeys streams).count k)
      ∧ (∀ (s : Stream) (rest : List Stream),
          AList.sumVal (detect_session_starters (s :: rest)) = 1 + gapCount (s :: rest))
      ∧ AList.getD (detect_session_starters scenC4) keyA 0 = 2 := by
  refine ⟨dss_getD_eq_count, fun s rest => ?_, by decide⟩
  rw [dss_eq_foldl, sumVal_foldl_bump, starterKeys, List.length_cons,
    length_laterStarterKeys, AList.sumVal_nil]
  omega

/-- C3 counterexample: the events of `exC3` (2024-12-30 and 2025-01-01) fall
in one and the same ISO week, 2025-W01, so the claim demands a distinct-week
count of 1; the code computes 2 because it pairs the CALENDAR year with the
ISO week number. -/
theorem C3_counterexample :
    AList.getD (calculate_consistency exC3).1 keyD 0 = 2
      ∧ specIsoDistinctWeeks exC3 keyD = 1
      ∧ (2 : Nat) ≠ 1 := by decide

/-- C3 amended: the distinct-week count equals the number of distinct
(calendar year, ISO week number) identifiers among the track's events — not
distinct (ISO year, ISO week number) pairs; the two notions differ near
year boundaries, as the counterexample shows. -/
theorem C3_amended (streams : List Stream) (k : String) :
    AList.getD (calculate_consistency streams).1 k 0
      = ((streams.filter fun s => decide (get_song_key s = k)).map
          fun s => weekLabel s.endTime).dedup.length := by
  rw [consistency_getD, songWeeks_getD, length_foldl_setAdd]

/-- C10: the events `sC10a` (track "a|||b", artist "c") and `sC10b`
(track "a", artist "b|||c") have distinct name pairs but identical keys
"a|||b|||c", and they merge into a single aggregate (one dictionary entry
with play_count 2, one completion entry). -/
theorem C10_key_collision :
    get_song_key sC10a = get_song_key sC10b
      ∧ sC10a.trackName ≠ sC10b.trackName
      ∧ sC10a.artistName ≠ sC10b.artistName
      ∧ AList.keys (analyze_basic_metrics [sC10a, sC10b]) = [get_song_key sC10a]
      ∧ (AList.getD (analyze_basic_metrics [sC10a, sC10b]) (get_song_key sC10a)
          basicDefault).play_count = 2
      ∧ AList.keys (calculate_completion_rates [sC10a, sC10b]) = [get_song_key sC10a] := by
  decide

/-- C9: the event store keeps exactly the events at or after the cutoff
2024-12-01 00:00 (a permutation of the filtered input, with matching
membership), orders the result ascending by timestamp, and preserves the
relative input order of events with equal timestamps; concretely an event
at 2024-11-30 23:59 is dropped, one at exactly 2024-12-01 00:00 is kept,
and two events tied at one timestamp stay in input order. -/
theorem C9_event_store :
    (∀ streams : List Stream,
        (load_streaming_history streams).Perm
          (streams.filter fun s => decide (toMin cutoff ≤ toMin s.endTime))
        ∧ (∀ s : Stream, s ∈ load_streaming_history streams
            ↔ s ∈ streams ∧ toMin cutoff ≤ toMin s.endTime)
        ∧ (load_streaming_history streams).Sorted streamLE
        ∧ (∀ t : Nat,
            (load_streaming_history streams).filter
                (fun s => decide (toMin s.endTime = t))
              = streams.filter fun s =>
                  decide (toMin s.endTime = t) && decide (toMin cutoff ≤ toMin s.endTime)))
    ∧ load_streaming_history [evBefore, evAt] = [evAt]
    ∧ load_streaming_history [evTie1, evTie2] = [evTie1, evTie2] := by
  refine ⟨fun streams => ⟨?_, ?_, ?_, ?_⟩, by decide, by decide⟩
  · exact List.perm_insertionSort _ _
  · intro s
    rw [load_streaming_history]
    rw [(List.perm_insertionSort _ _).mem_iff, List.mem_filter, decide_eq_true_eq]
  · exact List.sorted_insertionSort _ _
  · intro t
    have hp : ∀ a b : Stream, decide (toMin a.endTime = t) = true
        → decide (toMin b.endTime = t) = true → streamLE a b := by
      intro a b ha hb
      rw [decide_eq_true_eq] at ha hb
      rw [streamLE, ha, hb]
    rw [load_streaming_history, filter_insertionSort streamLE _ hp, List.filter_filter]

/-- C8: every key of a ranked top-N list — for any sort key whatsoever,
which covers the play-count, minutes-listened and weighted-favorites
rankings of `generate_reports` — belongs to the filtered cohort: its
stored play_count is at least 3. -/
theorem C8_cohort_filter (streams : List Stream) (sortKey : String → ℚ) (limit : Nat)
    (k : String)
    (hk : k ∈ rankedKeys (filtered_songs (analyze_basic_metrics streams)) sortKey limit) :
    ∃ bs : BasicStats,
      AList.lookup? (analyze_basic_metrics streams) k = some bs ∧ 3 ≤ bs.play_count := by
  rw [rankedKeys] at hk
  have h1 := List.mem_of_mem_take hk
  have h2 : k ∈ AList.keys (filtered_songs (analyze_basic_metrics streams)) :=
    (List.perm_insertionSort _ _).mem_iff.mp h1
  rw [AList.keys] at h2
  obtain ⟨⟨k0, bs⟩, hmem, hfst⟩ := List.mem_map.mp h2
  rw [filtered_songs, AList.filt] at hmem
  obtain ⟨hmem', hp⟩ := List.mem_filter.mp hmem
  have hk0 : k0 = k := hfst
  subst hk0
  refine ⟨bs, AList.lookup?_eq_some_of_mem_nodup (nodup_keys_basic streams) hmem', ?_⟩
  simpa using hp

/-- C8 witness: `C8_cohort_filter` applied to the one-track scenario input,
where `keyA` heads every ranking. -/
theorem C8_witness :
    keyA ∈ rankedKeys (filtered_songs (analyze_basic_metrics scenC4)) (fun _ => (0 : ℚ)) 10
      ∧ ∃ bs : BasicStats,
          AList.lookup? (analyze_basic_metrics scenC4) keyA = some bs
            ∧ 3 ≤ bs.play_count :=
  ⟨by decide, C8_cohort_filter scenC4 (fun _ => 0) 10 keyA (by decide)⟩

/-- C6: whenever the pipeline's weighted score computes without fault, each
of the five normalized components lies in [0, 1]; the total is the weighted
sum with the non-negative weights 0.25, 0.30, 0.25, 0.15, 0.05 (which sum
to 1); and the total also lies in [0, 1]. -/
theorem C6_score_bounds (streams : List Stream) (k : String) (sb : ScoreBreakdown)
    (h : pipelineScores streams k = some sb) :
    (0 ≤ sb.minutes ∧ sb.minutes ≤ 1)
      ∧ (0 ≤ sb.sessions ∧ sb.sessions ≤ 1)
      ∧ (0 ≤ sb.completion ∧ sb.completion ≤ 1)
      ∧ (0 ≤ sb.density ∧ sb.density ≤ 1)
      ∧ (0 ≤ sb.consistency ∧ sb.consistency ≤ 1)
      ∧ sb.total = sb.minutes * (25 / 100) + sb.sessions * (30 / 100)
          + sb.completion * (25 / 100) + sb.density * (15 / 100)
          + sb.consistency * (5 / 100)
      ∧ (0 ≤ sb.total ∧ sb.total ≤ 1) := by
  rw [pipelineScores, calculate_weighted_score] at h
  split at h
  · exact absurd h (by simp)
  next bs hb =>
    split at h
    · exact absurd h (by simp)
    next hz =>
      have hor : ¬ (max_minutes (analyze_basic_metrics streams) = 0
          ∨ maxOr1 (detect_session_starters streams) = 0
          ∨ maxOr1 (calculate_listening_density streams).1 = 0
          ∨ maxOr1 (calculate_consistency streams).1 = 0) :=
        fun hc => hz ((zeroDenomB_iff _ _ _ _).mpr hc)
      push_neg at hor
      obtain ⟨hz1, hz2, hz3, hz4⟩ := hor
      have hmin := minutes_score_bounds (analyze_basic_metrics streams) k bs hb hz1
      have hses := nat_score_bounds (detect_session_starters streams) k hz2
      have hden := nat_score_bounds (calculate_listening_density streams).1 k hz3
      have hcon := nat_score_bounds (calculate_consistency streams).1 k hz4
      have hcom := completionOf_bounds streams k
      injection h with h'
      subst h'
      refine ⟨hmin, hses, hcom, hden, hcon, rfl, ?_, ?_⟩
      · have := hmin.1
        have := hses.1
        have := hcom.1
        have := hden.1
        have := hcon.1
        positivity
      · obtain ⟨hm0, hm1⟩ := hmin
        obtain ⟨hs0, hs1⟩ := hses
        obtain ⟨hc0, hc1⟩ := hcom
        obtain ⟨hd0, hd1⟩ := hden
        obtain ⟨hn0, hn1⟩ := hcon
        show _ * (25 / 100) + _ * (30 / 100) + _ * (25 / 100) + _ * (15 / 100)
            + _ * (5 / 100) ≤ (1 : ℚ)
        linarith

/-- C6 witness: `C6_score_bounds` applied to the score the pipeline
actually computes for `keyA` on the scenario input `scenC4`. -/
theorem C6_witness :
    pipelineScores scenC4 keyA = some sbC6
      ∧ ((0 ≤ sbC6.minutes ∧ sbC6.minutes ≤ 1)
          ∧ (0 ≤ sbC6.sessions ∧ sbC6.sessions ≤ 1)
          ∧ (0 ≤ sbC6.completion ∧ sbC6.completion ≤ 1)
          ∧ (0 ≤ sbC6.density ∧ sbC6.density ≤ 1)
          ∧ (0 ≤ sbC6.consistency ∧ sbC6.consistency ≤ 1)
          ∧ sbC6.total = sbC6.minutes * (25 / 100) + sbC6.sessions * (30 / 100)
              + sbC6.completion * (25 / 100) + sbC6.density * (15 / 100)
              + sbC6.consistency * (5 / 100)
          ∧ (0 ≤ sbC6.total ∧ sbC6.total ≤ 1)) :=
  ⟨rfl, C6_score_bounds scenC4 keyA sbC6 rfl⟩

/-- C1 counterexample: on `exC1` the `total_ms` maximum the aggregation
uses is 600000 (it comes from the ineligible track B with a single play),
while the eligible-cohort maximum the claim prescribes is 180000; the
eligible track A consequently scores `3/10` on the minutes component
instead of the `1` the eligible-cohort normalization would give. -/
theorem C1_counterexample :
    maxMsAll (analyze_basic_metrics exC1) = 600000
      ∧ specEligibleMaxMs (analyze_basic_metrics exC1) = 180000
      ∧ (600000 : Nat) ≠ 180000
      ∧ pipelineScores exC1 keyA = some sbC1
      ∧ sbC1.minutes = 3 / 10
      ∧ ((3 : ℚ) / 10) ≠ 1
      ∧ (((180000 : ℕ) : ℚ) / 60000) / (((180000 : ℕ) : ℚ) / 60000) = 1 := by
  refine ⟨by decide, by decide, by decide, rfl, ?_, by norm_num, by norm_num⟩
  have h2 : sbC1.minutes
      = (((AList.getD (analyze_basic_metrics exC1) keyA basicDefault).total_ms : ℚ)
            / 60000)
          / ((maxMsAll (analyze_basic_metrics exC1) : ℚ) / 60000) := rfl
  have h3 : (AList.getD (analyze_basic_metrics exC1) keyA basicDefault).total_ms
      = 180000 := by decide
  have h4 : maxMsAll (analyze_basic_metrics exC1) = 600000 := by decide
  rw [h2, h3, h4]
  norm_num

/-- C1 amended: the four normalization maxima are taken over ALL observed
tracks, not only the eligible cohort; accordingly the eligible-cohort
maxima the spec prescribes never exceed the maxima the aggregation
actually uses. -/
theorem C1_amended (streams : List Stream) :
    specEligibleMaxMs (analyze_basic_metrics streams)
        ≤ maxMsAll (analyze_basic_metrics streams)
      ∧ specEligibleMaxNat (analyze_basic_metrics streams) (detect_session_starters streams)
          ≤ AList.maxVal (detect_session_starters streams) id
      ∧ specEligibleMaxNat (analyze_basic_metrics streams)
            (calculate_listening_density streams).1
          ≤ AList.maxVal (calculate_listening_density streams).1 id
      ∧ specEligibleMaxNat (analyze_basic_metrics streams)
            (calculate_consistency streams).1
          ≤ AList.maxVal (calculate_consistency streams).1 id :=
  ⟨AList.maxVal_filter_le _ _ _, AList.maxVal_filter_le _ _ _,
    AList.maxVal_filter_le _ _ _, AList.maxVal_filter_le _ _ _⟩

/-- C2 counterexample: on `exC2` the cohort is non-empty (track C is
eligible), the minutes maximum and the density maximum are both 0, and the
score computation faults (`none`) instead of treating the denominators as
1 and returning a total of 0. -/
theorem C2_counterexample :
    (AList.lookup? (filtered_songs (analyze_basic_metrics exC2)) keyC).isSome = true
      ∧ maxMsAll (analyze_basic_metrics exC2) = 0
      ∧ AList.maxVal (calculate_listening_density exC2).1 id = 0
      ∧ pipelineScores exC2 keyC = none := by decide

/-- C2 amended: for an eligible track, the guard covers only the EMPTINESS
of the sessions / density / consistency dictionaries (and the sessions and
consistency maxima are never 0 for a non-empty store), so the aggregation
faults with a division by zero exactly when the maximum total
milliseconds is 0 or the maximum multi-listen-day count is 0 — it never
substitutes a denominator of 1 for a zero maximum. -/
theorem C2_amended (streams : List Stream) (k : String) (bs : BasicStats)
    (h : AList.lookup? (filtered_songs (analyze_basic_metrics streams)) k = some bs) :
    pipelineScores streams k = none
      ↔ (maxMsAll (analyze_basic_metrics streams) = 0
          ∨ AList.maxVal (calculate_listening_density streams).1 id = 0) := by
  have hmem := AList.mem_of_lookup?_eq_some h
  rw [filtered_songs, AList.filt] at hmem
  have hmem' := (List.mem_filter.mp hmem).1
  have hb : AList.lookup? (analyze_basic_metrics streams) k = some bs :=
    AList.lookup?_eq_some_of_mem_nodup (nodup_keys_basic streams) hmem'
  obtain ⟨s, rest, rfl⟩ : ∃ s rest, streams = s :: rest := by
    cases streams with
    | nil =>
      rw [analyze_basic_metrics] at hb
      simp [AList.lookup?_nil] at hb
    | cons s rest => exact ⟨s, rest, rfl⟩
  rw [pipelineScores, cws_eq_none_iff k _ _ _ _ _ _ hb]
  constructor
  · rintro (hx | hx | hx | hx)
    · exact Or.inl ((max_minutes_eq_zero_iff _).mp hx)
    · exact absurd hx (dss_maxOr1_ne_zero s rest)
    · exact Or.inr ((density_maxOr1_zero_iff s rest).mp hx)
    · exact absurd hx (consistency_maxOr1_ne_zero s rest)
  · rintro (hx | hx)
    · exact Or.inl ((max_minutes_eq_zero_iff _).mpr hx)
    · exact Or.inr (Or.inr (Or.inl ((density_maxOr1_zero_iff s rest).mpr hx)))

/-- C2 amended witness: `C2_amended` applied to `exC2`, whose single track
is eligible and whose computation indeed faults. -/
theorem C2_amended_witness :
    AList.lookup? (filtered_songs (analyze_basic_metrics exC2)) keyC
        = some ⟨3, 0, "C", "X"⟩
      ∧ (pipelineScores exC2 keyC = none
          ↔ (maxMsAll (analyze_basic_metrics exC2) = 0
              ∨ AList.maxVal (calculate_listening_density exC2).1 id = 0)) :=
  ⟨by decide, C2_amended exC2 keyC ⟨3, 0, "C", "X"⟩ (by decide)⟩

end Wrapped
